/- Verification development for the MetaMark parsing core
   (src/metamark-core: parser.c, lexer.c, ast.c, metadata.c, utils.c).

   The C code is shallowly embedded: the input buffer is a `List Char`
   (a C string; the NUL terminator is implicit, `peek` past the end
   returns the sentinel `'\x00'`), a cursor is a `Nat` position, every
   allocation is assumed to succeed (heap exhaustion is environment
   nondeterminism), and the process-wide "last error" slot written by
   `set_error` is threaded explicitly through every function as an
   in/out value.  Scanning loops from the C source are modelled as
   structurally recursive walks over the suffix `input.drop pos` so that
   every definition evaluates by `rfl`/`decide`. -/
import Mathlib

set_option linter.unusedVariables false

namespace MetaMark

/-! ## Character classification (ctype.h, C locale, ASCII inputs) -/

/-- C `isspace` in the C locale: space, \t, \n, \v, \f, \r. -/
def mm_isspace (c : Char) : Bool :=
  c = ' ' || c = '\t' || c = '\n' || c = '\x0B' || c = '\x0C' || c = '\r'

/-- C `isalpha` in the C locale (ASCII letters). -/
def mm_isalpha (c : Char) : Bool :=
  ('A' ≤ c && c ≤ 'Z') || ('a' ≤ c && c ≤ 'z')

/-- C `isdigit`. -/
def mm_isdigit (c : Char) : Bool :=
  '0' ≤ c && c ≤ '9'

/-- C `isalnum` in the C locale. -/
def mm_isalnum (c : Char) : Bool :=
  mm_isalpha c || mm_isdigit c

/-! ## Error state (utils.c)

`metamark.h`'s `MetaMarkError` enum is out of sync with the .c files:
`utils.c` and `parser.c` additionally use `MM_ERROR_NONE` and
`MM_ERROR_INVALID` (the spec's set {None, Memory, IO, Syntax,
InvalidArgument}).  Constructor names are abbreviated
(`errSyn` = MM_ERROR_SYNTAX, `errIo` = MM_ERROR_IO,
`errInvalid` = MM_ERROR_INVALID, `errNone` = MM_ERROR_NONE,
`errMemory` = MM_ERROR_MEMORY). -/

/-- The closed set of error kinds held by the `last_error` slot. -/
inductive MetaMarkError where
  | errNone
  | errMemory
  | errIo
  | errSyn
  | errInvalid
deriving DecidableEq, Repr

/-! ## AST model (metamark.h, ast.c)

`parser.c` writes `node->level` although `metamark.h`'s struct omits the
field; the spec's data model (§3) includes it, so `Node` carries it.
`create_node` leaves it uninitialized in C and it is only ever read for
headings after `parse_heading` stores it; the model initializes it to 0. -/

/-- Node kinds (`NodeType` in metamark.h; `NODE_ANNOT` = NODE_ANNOTATION). -/
inductive NodeType where
  | NODE_DOCUMENT
  | NODE_METADATA
  | NODE_PARAGRAPH
  | NODE_HEADING
  | NODE_ANNOT
  | NODE_COMMENT
  | NODE_COMPONENT
  | NODE_COLLAPSIBLE
  | NODE_DIAGRAM
  | NODE_MATH
  | NODE_SECURE
deriving DecidableEq, Repr

/-- An AST node: kind, optional content string (C `char *content`,
NULL = `none`), owned children in order, and the growable array's
capacity bookkeeping (`child_capacity`); `child_count` is the length of
`children`. -/
inductive Node where
  | mk (type : NodeType) (content : Option String) (children : List Node)
       (child_capacity : Nat) (level : Nat)

/-- `node->type`. -/
def Node.type : Node → NodeType
  | .mk t _ _ _ _ => t

/-- `node->content`. -/
def Node.content : Node → Option String
  | .mk _ c _ _ _ => c

/-- `node->children`. -/
def Node.children : Node → List Node
  | .mk _ _ ch _ _ => ch

/-- `node->child_capacity`. -/
def Node.child_capacity : Node → Nat
  | .mk _ _ _ cap _ => cap

/-- `node->level` (written only by `parse_heading`). -/
def Node.level : Node → Nat
  | .mk _ _ _ _ l => l

/-- `node->child_count` (the C struct stores it; it always equals the
length of the children array). -/
def Node.child_count (n : Node) : Nat := n.children.length

/-- Rebuild a node with new children and capacity (C mutates in place). -/
def Node.withChildren : Node → List Node → Nat → Node
  | .mk t c _ _ l, ch, cap => .mk t c ch cap l

/-- ast.c `create_node`: fresh node, no children, capacity 0
(`content ? strdup(content) : NULL`; strdup assumed to succeed). -/
def create_node (t : NodeType) (content : Option String) : Node :=
  .mk t content [] 0 0

/-- ast.c `add_child` for non-NULL arguments: grow the children array if
full (capacity 0 becomes 4, otherwise doubles; `realloc` assumed to
succeed) and append the child. -/
def add_child (parent : Node) (child : Node) : Node :=
  let cap :=
    if parent.child_count ≥ parent.child_capacity then
      (if parent.child_capacity = 0 then 4 else parent.child_capacity * 2)
    else parent.child_capacity
  parent.withChildren (parent.children ++ [child]) cap

/-- ast.c `add_child` including the NULL-pointer guard
(`if (!parent || !child) return;`): a NULL parent or child leaves
everything unchanged. -/
def add_child_ptr : Option Node → Option Node → Option Node
  | none, _ => none
  | some p, none => some p
  | some p, some c => some (add_child p c)

/-- A metadata key/value pair (metamark.h `MetadataPair`). -/
abbrev MetadataPair := String × String

/-- metamark.h `Document`: the metadata pair array (in insertion order;
`metadata_count` = list length) and the root node. -/
structure Document where
  metadata : List MetadataPair
  root : Node

/-! ## Scanner primitives (lexer.c; `peek_at` modelled from the spec)

`peek_at` is declared in lexer.h and called throughout parser.c but has
no definition anywhere under src/.  Modelled from the spec (§4.1):
"peekAt(offset) returns the byte at position+offset or a sentinel (NUL)
past end-of-input — never indexes out of bounds". -/

/-- Modelled from the spec: `peek_at(lexer, offset)` — the byte at
`pos + offset`, or the NUL sentinel past end-of-input. -/
def peek_at (input : List Char) (pos off : Nat) : Char :=
  input.getD (pos + off) '\x00'

/-- lexer.c `peek`: the byte at the cursor, NUL at/past end-of-input. -/
def peek (input : List Char) (pos : Nat) : Char :=
  input.getD pos '\x00'

/-- lexer.c `next`: advance the cursor unless at end-of-input (the
returned character is never used by the parser, only the advancement). -/
def next_pos (input : List Char) (pos : Nat) : Nat :=
  if peek input pos = '\x00' then pos else pos + 1

/-- Generic single-character scanning loop: the C idiom
`while (cond(peek(lexer))) next(lexer);` walking the suffix
`input.drop pos` (the `[]` case is the NUL sentinel at end-of-input, on
which every instantiated condition is false). -/
def scanWhileGo (f : Char → Bool) : List Char → Nat → Nat
  | [], pos => pos
  | c :: rest, pos => if f c then scanWhileGo f rest (pos + 1) else pos

/-- Wrapper running `scanWhileGo` at an absolute cursor position. -/
def scan_while (f : Char → Bool) (input : List Char) (pos : Nat) : Nat :=
  scanWhileGo f (input.drop pos) pos

/-- lexer.c `skip_whitespace` / the parser's intraline-whitespace skips:
`while (isspace(peek) && peek != '\n') next;`. -/
def skip_whitespace (input : List Char) (pos : Nat) : Nat :=
  scan_while (fun c => mm_isspace c && c ≠ '\n') input pos

/-- parse_heading's marker loop: `while (peek == '#') { level++; next; }`
(the resulting level is the distance advanced). -/
def scan_hashes (input : List Char) (pos : Nat) : Nat :=
  scan_while (fun c => c = '#') input pos

/-- Read to end of line: `while (peek != '\0' && peek != '\n') next;`. -/
def scan_line (input : List Char) (pos : Nat) : Nat :=
  scan_while (fun c => c ≠ '\x00' && c ≠ '\n') input pos

/-- parse_component's scans for `]`:
`while (peek != ']' && peek != '\0') next;` (also used to skip to the
closing tag's `]`, whose C condition `peek != '\0' && peek != ']'` is the
same test). -/
def scan_to_rbracket (input : List Char) (pos : Nat) : Nat :=
  scan_while (fun c => c ≠ ']' && c ≠ '\x00') input pos

/-- parse_annotation's type scan:
`while (peek != ':' && peek != '\0' && peek != '\n') next;`. -/
def scan_annot_type (input : List Char) (pos : Nat) : Nat :=
  scan_while (fun c => c ≠ ':' && c ≠ '\x00' && c ≠ '\n') input pos

/-- parse_node's blank-line skip:
`while (current == '\n' || current == '\r') { next; current = peek; }`. -/
def skip_nl_cr (input : List Char) (pos : Nat) : Nat :=
  scan_while (fun c => c = '\n' || c = '\r') input pos

/-- Whitespace skip that also consumes newlines
(`while (isspace(current)) next;` in parse_node and the document loop). -/
def skip_ws_all (input : List Char) (pos : Nat) : Nat :=
  scan_while mm_isspace input pos

/-- lexer.c `read_token_value`: `len = end - start` is a `size_t`, so a
back-to-front range wraps to an astronomically large length whose
`malloc` fails (returns `none`); otherwise `strncpy` copies `len` bytes
from `input + start`, stopping at the input's NUL terminator (modelled
by `drop`/`take` over the actual characters, with an embedded NUL also
truncating).  `start == end` yields the empty string, not `none`. -/
def read_token_value (input : List Char) (start end_ : Nat) : Option String :=
  if start > end_ then none
  else some (String.mk (((input.drop start).take (end_ - start)).takeWhile (fun c => c ≠ '\x00')))

/-- Token kinds (lexer.c's local enum). -/
inductive TokenType where
  | TOKEN_EOF
  | TOKEN_NEWLINE
  | TOKEN_HEADING
  | TOKEN_METADATA_START
  | TOKEN_COMPONENT_START
  | TOKEN_COMPONENT_END
  | TOKEN_ANNOTATION_START
  | TOKEN_COMMENT_START
  | TOKEN_TEXT
deriving DecidableEq, Repr

/-- lexer.c's text-token scan inside `next_token`:
`while (peek != '\0' && !isspace(peek) && peek != '#' && peek != '[' &&
peek != '@' && peek != '%') next;`. -/
def scan_text_token (input : List Char) (pos : Nat) : Nat :=
  scan_while
    (fun c => c ≠ '\x00' && !mm_isspace c && c ≠ '#' && c ≠ '[' && c ≠ '@' && c ≠ '%')
    input pos

/-- lexer.c `next_token`: classify the bytes at the cursor and consume
them.  The C source reads the lookahead as `peek(lexer + N)` — an
out-of-bounds struct access; the intended operation (per lexer.h and the
spec's 3-byte-lookahead description) is `peek_at(lexer, N)`, modelled
here.  The `token_value` bookkeeping for text tokens is unobservable by
the parser and is dropped. -/
def next_token (input : List Char) (pos : Nat) : TokenType × Nat :=
  let p := skip_whitespace input pos
  let c := peek input p
  if c = '\x00' then (.TOKEN_EOF, p)
  else if c = '\n' then (.TOKEN_NEWLINE, p + 1)
  else if c = '#' then (.TOKEN_HEADING, p + 1)
  else if c = '-' ∧ peek_at input p 1 = '-' ∧ peek_at input p 2 = '-' then
    (.TOKEN_METADATA_START, p + 3)
  else if c = '[' ∧ peek_at input p 1 = '[' then (.TOKEN_COMPONENT_START, p + 2)
  else if c = ']' ∧ peek_at input p 1 = ']' then (.TOKEN_COMPONENT_END, p + 2)
  else if c = '@' ∧ peek_at input p 1 = '[' then (.TOKEN_ANNOTATION_START, p + 2)
  else if c = '%' ∧ peek_at input p 1 = '%' then (.TOKEN_COMMENT_START, p + 2)
  else (.TOKEN_TEXT, scan_text_token input p)

/-! ## Validation helper (utils.c) -/

/-- utils.c `is_valid_identifier`: non-empty, first byte a letter or
underscore, remaining bytes alphanumeric or underscore. -/
def is_valid_identifier (s : String) : Bool :=
  match s.data with
  | [] => false
  | c :: rest =>
    (mm_isalpha c || c = '_') && rest.all (fun d => mm_isalnum d || d = '_')

/-! ## Metadata extractor (metadata.c)

Note a C subtlety faithfully modelled here: `trim_whitespace(char *str)`
advances a *local* pointer past leading whitespace and truncates
trailing whitespace in place, so the caller's buffer keeps its leading
whitespace — the function only removes trailing whitespace (and leaves an
all-whitespace string unchanged because of its early return). -/

/-- Remove trailing characters satisfying `f` (stopping at the first
character from the right that fails `f`). -/
def dropTrailing (f : Char → Bool) (l : List Char) : List Char :=
  (l.reverse.dropWhile f).reverse

/-- metadata.c `trim_whitespace`: trailing whitespace is cut in place;
the leading whitespace survives in the caller's buffer (the leading skip
only advances a local pointer); an all-whitespace string is returned
unchanged by the early `if (*str == 0) return;`. -/
def trim_whitespace (l : List Char) : List Char :=
  if l.dropWhile mm_isspace = [] then l else dropTrailing mm_isspace l

/-- metadata.c `extract_key`: the text before the first `:` (absent if
the line has no colon), passed through `trim_whitespace`. -/
def extract_key (line : List Char) : Option String :=
  if ':' ∈ line then some (String.mk (trim_whitespace (line.takeWhile (fun c => c ≠ ':'))))
  else none

/-- metadata.c `extract_value`: the text after the first `:` with leading
whitespace skipped (absent if the line has no colon). -/
def extract_value (line : List Char) : Option String :=
  if ':' ∈ line then
    some (String.mk (((line.dropWhile (fun c => c ≠ ':')).tail).dropWhile mm_isspace))
  else none

/-- metadata.c `add_metadata`: append the pair to the document's mapping
(no-op when key or value is NULL).  The C capacity management
(`malloc(8)` then a single `realloc(16)`) has no observable effect on
the stored sequence for the entry counts exercised by the library (and
overruns the buffer past 16 entries — undefined behaviour the model does
not extend to); the sequence semantics is an in-order append. -/
def add_metadata (doc : Document) (key value : Option String) : Document :=
  match key, value with
  | some k, some v => { doc with metadata := doc.metadata ++ [(k, v)] }
  | _, _ => doc

/-- The scan loop of `get_metadata`: return the value of the first pair
whose key compares equal (`strcmp == 0`). -/
def get_metadata_go (key : String) : List MetadataPair → Option String
  | [] => none
  | (k, v) :: rest => if k = key then some v else get_metadata_go key rest

/-- metadata.c `get_metadata`: first-match lookup in insertion order. -/
def get_metadata (doc : Document) (key : String) : Option String :=
  get_metadata_go key doc.metadata

/-- The strchr-driven line splitting shared by metadata.c
`parse_metadata_string` and parser.c `parse_metadata`: accumulate the
current line until `\n`; after a `\n` continue only if text remains
(`while (*line_start)`), so a single trailing newline yields no final
empty line. -/
def splitLinesGo (cur : List Char) : List Char → List (List Char)
  | [] => [cur.reverse]
  | c :: rest =>
    if c = '\n' then
      cur.reverse :: (if rest.isEmpty then [] else splitLinesGo [] rest)
    else splitLinesGo (c :: cur) rest

/-- Split a buffer into the lines the C loops iterate over. -/
def mm_split_lines : List Char → List (List Char)
  | [] => []
  | s => splitLinesGo [] s

/-- One iteration of `parse_metadata_string`'s loop: trim the line
(trailing only — see `trim_whitespace`), skip it when empty or starting
with `#`, otherwise extract key and value and `add_metadata` (which
no-ops if either is absent, i.e. the line has no colon). -/
def pms_line (doc : Document) (line : List Char) : Document :=
  let t := trim_whitespace line
  if t ≠ [] ∧ t.head? ≠ some '#' then add_metadata doc (extract_key t) (extract_value t)
  else doc

/-- The whole line loop of `parse_metadata_string`. -/
def pms_go (doc : Document) (lines : List (List Char)) : Document :=
  lines.foldl pms_line doc

/-- metadata.c `parse_metadata_string` (NULL content is a no-op). -/
def parse_metadata_string (doc : Document) (s : Option (List Char)) : Document :=
  match s with
  | none => doc
  | some cs => pms_go doc (mm_split_lines cs)

/-- metadata.c `parse_metadata_node`: feed a Metadata node's raw content
to `parse_metadata_string` (no-op for other kinds or absent content). -/
def parse_metadata_node (doc : Document) (node : Node) : Document :=
  if node.type = .NODE_METADATA then
    match node.content with
    | some s => parse_metadata_string doc (some s.data)
    | none => doc
  else doc

/-- The key/value pair contributed by one line of a frontmatter body
(`none` when the line is skipped or colon-free): the specification of
`pms_line`'s effect on the metadata list. -/
def line_pair (line : List Char) : Option MetadataPair :=
  let t := trim_whitespace line
  if t ≠ [] ∧ t.head? ≠ some '#' then
    match extract_key t, extract_value t with
    | some k, some v => some (k, v)
    | _, _ => none
  else none

/-- All pairs a frontmatter body contributes, in input order. -/
def pairsOf (cs : List Char) : List MetadataPair :=
  (mm_split_lines cs).filterMap line_pair

/-! ## Grammar parser (parser.c)

Every parse routine takes the input, the cursor and the current value of
the `last_error` slot and returns the produced node (`none` both on "no
node" and on error, as in C), the new cursor and the new slot value.
Scans with multi-byte lookahead walk the suffix like `scanWhileGo`,
peeking at the following characters with `getD` (default NUL = the
sentinel `peek_at` yields past end-of-input). -/

/-- parse_component's body scan:
`while (peek != '\0') { if (peek=='[' && peek_at(1)=='[' && peek_at(2)=='/') break; next; }`. -/
def scanCompCloseGo : List Char → Nat → Nat
  | [], pos => pos
  | c :: rest, pos =>
    if c = '\x00' then pos
    else if c = '[' ∧ rest.getD 0 '\x00' = '[' ∧ rest.getD 1 '\x00' = '/' then pos
    else scanCompCloseGo rest (pos + 1)

/-- `scanCompCloseGo` at an absolute position. -/
def scan_comp_close (input : List Char) (pos : Nat) : Nat :=
  scanCompCloseGo (input.drop pos) pos

/-- parse_comment's body scan:
`while (peek != '\0') { if (peek=='%' && peek_at(1)=='%') break; next; }`. -/
def scanCommentCloseGo : List Char → Nat → Nat
  | [], pos => pos
  | c :: rest, pos =>
    if c = '\x00' then pos
    else if c = '%' ∧ rest.getD 0 '\x00' = '%' then pos
    else scanCommentCloseGo rest (pos + 1)

/-- `scanCommentCloseGo` at an absolute position. -/
def scan_comment_close (input : List Char) (pos : Nat) : Nat :=
  scanCommentCloseGo (input.drop pos) pos

/-- parse_metadata's fence scan:
`while (peek != '\0') { if (peek=='-' && peek_at(1)=='-' && peek_at(2)=='-') break; next; }`. -/
def scanMetaCloseGo : List Char → Nat → Nat
  | [], pos => pos
  | c :: rest, pos =>
    if c = '\x00' then pos
    else if c = '-' ∧ rest.getD 0 '\x00' = '-' ∧ rest.getD 1 '\x00' = '-' then pos
    else scanMetaCloseGo rest (pos + 1)

/-- `scanMetaCloseGo` at an absolute position. -/
def scan_meta_close (input : List Char) (pos : Nat) : Nat :=
  scanMetaCloseGo (input.drop pos) pos

/-- The construct test inside parse_node's free-text loop (checked at
*every* byte, not only at line starts): `#`, `[[`, a `>` not followed by
another `>`, `%%`, or a `---` fence. -/
def text_break (c : Char) (rest : List Char) : Bool :=
  c = '#' ||
  (c = '[' && rest.getD 0 '\x00' = '[') ||
  (c = '>' && rest.getD 0 '\x00' ≠ '>') ||
  (c = '%' && rest.getD 0 '\x00' = '%') ||
  (c = '-' && rest.getD 0 '\x00' = '-' && rest.getD 1 '\x00' = '-')

/-- parse_node's free-text accumulation loop, carrying the
`consecutive_newlines` counter: a newline is consumed (and on the second
consecutive one the loop stops *after* it); a construct-introducing byte
stops the loop without being consumed; any other byte resets the counter
and is consumed. -/
def textScanGo : List Char → Nat → Nat → Nat
  | [], pos, _ => pos
  | c :: rest, pos, consec =>
    if c = '\x00' then pos
    else if c = '\n' then
      (if consec + 1 ≥ 2 then pos + 1 else textScanGo rest (pos + 1) (consec + 1))
    else if text_break c rest then pos
    else textScanGo rest (pos + 1) 0

/-- `textScanGo` at an absolute position, starting with zero consecutive
newlines. -/
def text_scan (input : List Char) (pos : Nat) : Nat :=
  textScanGo (input.drop pos) pos 0

/-- parse_comment's trailing trim:
`while (end > start && isspace(input[end-1])) end--;`. -/
def trim_end_ws (input : List Char) (start : Nat) : Nat → Nat
  | 0 => 0
  | e + 1 =>
    if start < e + 1 ∧ mm_isspace (input.getD e '\x00') then trim_end_ws input start e
    else e + 1

/-- parse_node's trailing-newline trim:
`while (end > start && (input[end-1]=='\n' || input[end-1]=='\r')) end--;`. -/
def trim_end_nl (input : List Char) (start : Nat) : Nat → Nat
  | 0 => 0
  | e + 1 =>
    if start < e + 1 ∧ (input.getD e '\x00' = '\n' ∨ input.getD e '\x00' = '\r') then
      trim_end_nl input start e
    else e + 1

/-- The C truthiness test `content && *content` on a `char *` returned by
`read_token_value` (whose strings never contain NUL, so `*content`
is nonzero exactly when the string is non-empty). -/
def c_str_nonempty : Option String → Bool
  | none => false
  | some s => !s.data.isEmpty

/-- parser.c `parse_heading`: count `#` bytes as the level, skip
intraline whitespace, take the rest of the line as content and consume
the newline.  `read_token_value(start, pos - 1)` intends to exclude the
newline just consumed — when the line ends at end-of-input instead, the
`- 1` drops the last content byte.  A node is produced only for
non-empty content. -/
def parse_heading (input : List Char) (pos : Nat) (err : MetaMarkError) :
    Option Node × Nat × MetaMarkError :=
  let p1 := scan_hashes input pos
  let level := p1 - pos
  let p2 := skip_whitespace input p1
  let start := p2
  let p3 := scan_line input p2
  let p4 := if peek input p3 = '\n' then p3 + 1 else p3
  let content := read_token_value input start (p4 - 1)
  if c_str_nonempty content then
    let node := create_node .NODE_HEADING content
    (some (Node.mk node.type node.content node.children node.child_capacity level), p4, err)
  else (none, p4, err)

/-- parser.c `parse_component`: consume `[[`, read the type up to `]`
(Syntax error unless `]]` follows), consume `]]` and one newline, scan
verbatim to `[[/` (Syntax error at end-of-input), attach the scanned
span as a single Paragraph child whenever `read_token_value` returns a
non-NULL pointer (which includes the empty span), then skip past the
closing tag's `]]` and one trailing newline. -/
def parse_component (input : List Char) (pos : Nat) (err : MetaMarkError) :
    Option Node × Nat × MetaMarkError :=
  let p1 := next_pos input (next_pos input pos)
  let start := p1
  let p2 := scan_to_rbracket input p1
  if ¬(peek input p2 = ']' ∧ peek_at input p2 1 = ']') then (none, p2, .errSyn)
  else
    let type := read_token_value input start p2
    let node := create_node .NODE_COMPONENT type
    let p3 := if peek input p2 = ']' ∧ peek_at input p2 1 = ']' then p2 + 2 else p2
    let p4 := if peek input p3 = '\n' then p3 + 1 else p3
    let start2 := p4
    let p5 := scan_comp_close input p4
    if ¬(peek input p5 = '[' ∧ peek_at input p5 1 = '[' ∧ peek_at input p5 2 = '/') then
      (none, p5, .errSyn)
    else
      let content := read_token_value input start2 p5
      let node2 :=
        match content with
        | some s => add_child node (create_node .NODE_PARAGRAPH (some s))
        | none => node
      let p6 := scan_to_rbracket input p5
      let p7 := if peek input p6 = ']' ∧ peek_at input p6 1 = ']' then p6 + 2 else p6
      let p8 := if peek input p7 = '\n' then p7 + 1 else p7
      (some node2, p8, err)

/-- parser.c `parse_annotation` (line-leading `>` grammar): consume `>`,
skip intraline whitespace, read the type up to `:`/newline/end (Syntax
error if empty or not a valid identifier); after a `:` the rest of the
line becomes a single Paragraph child whenever `read_token_value`
returns non-NULL (which includes the empty remainder); the trailing
newline is consumed. -/
def parse_annot (input : List Char) (pos : Nat) (err : MetaMarkError) :
    Option Node × Nat × MetaMarkError :=
  let p1 := next_pos input pos
  let p2 := skip_whitespace input p1
  let start := p2
  let p3 := scan_annot_type input p2
  if p3 = start then (none, p3, .errSyn)
  else
    let type := read_token_value input start p3
    if (match type with | some t => is_valid_identifier t | none => false) = false then
      (none, p3, .errSyn)
    else
      let node := create_node .NODE_ANNOT type
      if peek input p3 = ':' then
        let p4 := next_pos input p3
        let p5 := skip_whitespace input p4
        let start2 := p5
        let p6 := scan_line input p5
        let content := read_token_value input start2 p6
        let node2 :=
          match content with
          | some s => add_child node (create_node .NODE_PARAGRAPH (some s))
          | none => node
        let p7 := if peek input p6 = '\n' then p6 + 1 else p6
        (some node2, p7, err)
      else
        let p7 := if peek input p3 = '\n' then p3 + 1 else p3
        (some node, p7, err)

/-- parser.c `parse_comment`: consume `%%`, skip intraline whitespace,
scan to the closing `%%` (Syntax error at end-of-input), trim trailing
whitespace from the captured span (an empty span becomes the empty
string, never an absent one), consume the closing `%%` and one trailing
newline. -/
def parse_comment (input : List Char) (pos : Nat) (err : MetaMarkError) :
    Option Node × Nat × MetaMarkError :=
  let p1 := next_pos input (next_pos input pos)
  let p2 := skip_whitespace input p1
  let start := p2
  let p3 := scan_comment_close input p2
  if ¬(peek input p3 = '%' ∧ peek_at input p3 1 = '%') then (none, p3, .errSyn)
  else
    let end_ := trim_end_ws input start p3
    let content := (read_token_value input start end_).getD ""
    let node := create_node .NODE_COMMENT (some content)
    let p4 := if peek input p3 = '%' ∧ peek_at input p3 1 = '%' then p3 + 2 else p3
    let p5 := if peek input p4 = '\n' then p4 + 1 else p4
    (some node, p5, err)

/-- One line of parse_metadata's inline child-building loop: skip lines
that are empty or whose first non-whitespace byte is `#`; a processed
line must contain a colon (`none` = the Syntax error that aborts the
whole metadata block); key is the text before the first colon trimmed on
both ends (this inline loop, unlike metadata.c's, trims properly), value
is the text after it with leading whitespace skipped and trailing
whitespace trimmed; the child is a Paragraph with content `key:value`. -/
def meta_child_line (line : List Char) : Option (Option Node) :=
  let p := line.dropWhile mm_isspace
  if p ≠ [] ∧ p.head? ≠ some '#' then
    if ¬(':' ∈ line) then none
    else
      let key := dropTrailing mm_isspace ((line.takeWhile (fun c => c ≠ ':')).dropWhile mm_isspace)
      let v := ((line.dropWhile (fun c => c ≠ ':')).tail).dropWhile mm_isspace
      let value := dropTrailing mm_isspace v
      some (some (create_node .NODE_PARAGRAPH (some (String.mk (key ++ ':' :: value)))))
  else some none

/-- parse_metadata's full line loop: the Paragraph children in order, or
`none` on the first colon-free content line. -/
def meta_children : List (List Char) → Option (List Node)
  | [] => some []
  | line :: rest =>
    match meta_child_line line with
    | none => none
    | some none => meta_children rest
    | some (some n) => (meta_children rest).map (fun l => n :: l)

/-- parser.c `parse_metadata`: consume the opening `---` via
`next_token`, scan to the closing `---` (Syntax error at end-of-input),
store the raw span as the Metadata node's content, build one Paragraph
child per key/value line (a colon-free content line is a Syntax error
discarding the node), then consume the closing `---`. -/
def parse_metadata (input : List Char) (pos : Nat) (err : MetaMarkError) :
    Option Node × Nat × MetaMarkError :=
  let p1 := (next_token input pos).2
  let start := p1
  let p2 := scan_meta_close input p1
  if ¬(peek input p2 = '-' ∧ peek_at input p2 1 = '-' ∧ peek_at input p2 2 = '-') then
    (none, p2, .errSyn)
  else
    match read_token_value input start p2 with
    | none => (none, p2, .errMemory)
    | some content =>
      let node := create_node .NODE_METADATA (some content)
      match meta_children (mm_split_lines content.data) with
      | none => (none, p2, .errSyn)
      | some kids =>
        let node2 := kids.foldl add_child node
        let p3 :=
          if peek_at input p2 0 = '-' ∧ peek_at input p2 1 = '-' ∧ peek_at input p2 2 = '-' then
            p2 + 3
          else p2
        (some node2, p3, err)

/-- parser.c `parse_node`: skip blank lines and leading whitespace, then
dispatch on the current byte — `#` heading, `[[` component, `>`
annotation, `%%` comment, `---` metadata; any other non-NUL byte starts
free-text accumulation, producing a Paragraph only when the content
remains non-empty after trimming trailing newlines (and then consuming
any remaining newlines). -/
def parse_node (input : List Char) (pos : Nat) (err : MetaMarkError) :
    Option Node × Nat × MetaMarkError :=
  let p1 := skip_nl_cr input pos
  let p2 := skip_ws_all input p1
  let c := peek input p2
  if c = '#' then parse_heading input p2 err
  else if c = '[' ∧ peek_at input p2 1 = '[' then parse_component input p2 err
  else if c = '>' then parse_annot input p2 err
  else if c = '%' ∧ peek_at input p2 1 = '%' then parse_comment input p2 err
  else if c = '-' ∧ peek_at input p2 1 = '-' ∧ peek_at input p2 2 = '-' then
    parse_metadata input p2 err
  else if c ≠ '\x00' then
    let p3 := text_scan input p2
    let end_ := trim_end_nl input p2 p3
    let content := read_token_value input p2 end_
    if c_str_nonempty content then
      let node := create_node .NODE_PARAGRAPH content
      let p4 := skip_nl_cr input p3
      (some node, p4, err)
    else (none, p3, err)
  else (none, p2, err)

/-- parse_metamark's document loop
(`while (peek != '\0') { node = parse_node(); if (node) add_child(root, node);
else skip whitespace; }`), with an explicit step bound.  `parse_node`
advances the cursor whenever the loop guard holds (`parse_node_advances`
below), so the `input.length + 1` steps supplied by `mm_parse` can never
run out before the guard fails; the fuel-exhausted base case is
unreachable there. -/
def parse_loop (input : List Char) : Nat → Document → Nat → MetaMarkError →
    Document × MetaMarkError
  | 0, doc, _, err => (doc, err)
  | fuel + 1, doc, pos, err =>
    if peek input pos = '\x00' then (doc, err)
    else
      let r := parse_node input pos err
      match r.1 with
      | some n => parse_loop input fuel { doc with root := add_child doc.root n } r.2.1 r.2.2
      | none => parse_loop input fuel doc (skip_ws_all input r.2.1) r.2.2

/-- parse_metamark's frontmatter prologue: if the text begins with a
fence, parse one metadata block; on success attach it to the root and
feed it to the metadata extractor; a failed prologue block is simply
skipped (only the cursor and the error slot move). -/
def mm_prologue (input : List Char) (doc0 : Document) (err : MetaMarkError) :
    Document × Nat × MetaMarkError :=
  if peek_at input 0 0 = '-' ∧ peek_at input 0 1 = '-' ∧ peek_at input 0 2 = '-' then
    let m := parse_metadata input 0 err
    match m.1 with
    | some mnode =>
      (parse_metadata_node { doc0 with root := add_child doc0.root mnode } mnode, m.2.1, m.2.2)
    | none => (doc0, m.2.1, m.2.2)
  else (doc0, 0, err)

/-- parse_metamark's final structure check: a childless root is a
Syntax error discarding the document. -/
def mm_finish (doc : Document) (err : MetaMarkError) :
    Option Document × MetaMarkError :=
  if doc.root.child_count = 0 then (none, .errSyn) else (some doc, err)

/-- parser.c `parse_metamark` on a non-NULL input: skip leading
whitespace off the input pointer itself, reject an input empty after
that as Syntax, make an empty Document, run the frontmatter prologue and
then the document loop, and finally reject a childless root as Syntax. -/
def mm_parse (input0 : List Char) (err : MetaMarkError) :
    Option Document × MetaMarkError :=
  let input := input0.dropWhile mm_isspace
  if input.isEmpty then (none, .errSyn)
  else
    let st := mm_prologue input { metadata := [], root := create_node .NODE_DOCUMENT none } err
    let res := parse_loop input (input.length + 1) st.1 st.2.1 st.2.2
    mm_finish res.1 res.2

/-- parser.c `parse_metamark` including the NULL-input guard
(`if (!input) { set_error(MM_ERROR_INVALID); return NULL; }`). -/
def parse_metamark (input : Option (List Char)) (err : MetaMarkError) :
    Option Document × MetaMarkError :=
  match input with
  | none => (none, .errInvalid)
  | some s => mm_parse s err

/-! ## General lemmas about the scanning primitives -/

/-- A scan whose condition accepts every character of a prefix passes
over the whole prefix. -/
theorem scanWhileGo_append (f : Char → Bool) (A B : List Char) (pos : Nat)
    (h : ∀ c ∈ A, f c = true) :
    scanWhileGo f (A ++ B) pos = scanWhileGo f B (pos + A.length) := by
  induction A generalizing pos with
  | nil => simp [scanWhileGo]
  | cons a A ih =>
    have ha : f a = true := h a (by simp)
    show scanWhileGo f (a :: (A ++ B)) pos = _
    rw [scanWhileGo, if_pos ha, ih (pos + 1) (fun c hc => h c (by simp [hc]))]
    have harith : pos + 1 + A.length = pos + (a :: A).length := by
      simp only [List.length_cons]; omega
    rw [harith]

/-- A scan whose condition rejects the head (or that starts at
end-of-input) stays put. -/
theorem scanWhileGo_stop (f : Char → Bool) (l : List Char) (pos : Nat)
    (h : ∀ c, l.head? = some c → f c = false) :
    scanWhileGo f l pos = pos := by
  cases l with
  | nil => rfl
  | cons c rest => simp [scanWhileGo, h c rfl]

/-- `peek` is the head of the remaining suffix (with the NUL sentinel at
end-of-input). -/
theorem peek_drop (input : List Char) (pos : Nat) :
    peek input pos = (input.drop pos).headD '\x00' := by
  simp [peek, List.getD_eq_getElem?_getD, List.headD_eq_head?, List.head?_drop]

/-- One unfolding step of the document loop. -/
theorem parse_loop_succ (input : List Char) (fuel : Nat) (doc : Document)
    (pos : Nat) (err : MetaMarkError) :
    parse_loop input (fuel + 1) doc pos err =
      if peek input pos = '\x00' then (doc, err)
      else
        match (parse_node input pos err).1 with
        | some n => parse_loop input fuel { doc with root := add_child doc.root n }
            (parse_node input pos err).2.1 (parse_node input pos err).2.2
        | none => parse_loop input fuel doc
            (skip_ws_all input (parse_node input pos err).2.1)
            (parse_node input pos err).2.2 := rfl

/-! ## Behaviour of the metadata extractor on the pair level -/

/-- One `parse_metadata_string` line appends exactly the pair described
by `line_pair` (or nothing). -/
theorem pms_line_metadata (d : Document) (line : List Char) :
    (pms_line d line).metadata = d.metadata ++ (line_pair line).toList := by
  simp only [pms_line, line_pair]
  split
  · rcases hk : extract_key (trim_whitespace line) with _ | k <;>
      rcases hv : extract_value (trim_whitespace line) with _ | v <;>
        simp [add_metadata, hk, hv]
  · simp

/-- The full line loop appends exactly the `line_pair`s of the lines, in
order. -/
theorem pms_go_metadata (lines : List (List Char)) (d : Document) :
    (pms_go d lines).metadata = d.metadata ++ lines.filterMap line_pair := by
  induction lines generalizing d with
  | nil => simp [pms_go]
  | cons l ls ih =>
    have hstep : pms_go d (l :: ls) = pms_go (pms_line d l) ls := rfl
    rw [hstep, ih, pms_line_metadata, List.filterMap_cons]
    cases h : line_pair l <;> simp [h]

/-- First-match lookup: scanning past pairs with other keys finds the
first pair carrying the key. -/
theorem get_metadata_go_first (k : String) (v : String)
    (l1 rest : List MetadataPair) (h : ∀ p ∈ l1, p.1 ≠ k) :
    get_metadata_go k (l1 ++ (k, v) :: rest) = some v := by
  induction l1 with
  | nil => simp [get_metadata_go]
  | cons p l1 ih =>
    have hp : p.1 ≠ k := h p (by simp)
    cases p with
    | mk pk pv =>
      simp only [List.cons_append, get_metadata_go]
      rw [if_neg hp]
      exact ih (fun q hq => h q (by simp [hq]))

/-! ## Error-slot discipline of the parse routines

Only failing operations write the slot, and the parsing core writes only
`MM_ERROR_SYNTAX` (or `MM_ERROR_MEMORY` on an allocation failure). -/

/-- `parse_heading` never touches the error slot. -/
theorem parse_heading_err (input : List Char) (pos : Nat) (err : MetaMarkError) :
    (parse_heading input pos err).2.2 = err := by
  simp only [parse_heading]
  repeat' split
  all_goals rfl

/-- `parse_component` leaves the slot alone or records a Syntax error. -/
theorem parse_component_err (input : List Char) (pos : Nat) (err : MetaMarkError) :
    (parse_component input pos err).2.2 = err ∨ (parse_component input pos err).2.2 = .errSyn := by
  simp only [parse_component]
  repeat' split
  all_goals first
  | (left; rfl)
  | (right; rfl)

/-- `parse_annot` leaves the slot alone or records a Syntax error. -/
theorem parse_annot_err (input : List Char) (pos : Nat) (err : MetaMarkError) :
    (parse_annot input pos err).2.2 = err ∨ (parse_annot input pos err).2.2 = .errSyn := by
  simp only [parse_annot]
  repeat' split
  all_goals first
  | (left; rfl)
  | (right; rfl)

/-- `parse_comment` leaves the slot alone or records a Syntax error. -/
theorem parse_comment_err (input : List Char) (pos : Nat) (err : MetaMarkError) :
    (parse_comment input pos err).2.2 = err ∨ (parse_comment input pos err).2.2 = .errSyn := by
  simp only [parse_comment]
  repeat' split
  all_goals first
  | (left; rfl)
  | (right; rfl)

/-- `parse_metadata` leaves the slot alone or records a Syntax error (or
a Memory error if extracting the raw span fails to allocate). -/
theorem parse_metadata_err (input : List Char) (pos : Nat) (err : MetaMarkError) :
    (parse_metadata input pos err).2.2 = err ∨ (parse_metadata input pos err).2.2 = .errSyn ∨
      (parse_metadata input pos err).2.2 = .errMemory := by
  simp only [parse_metadata]
  repeat' split
  all_goals first
  | (left; rfl)
  | (right; left; rfl)
  | (right; right; rfl)

/-- `parse_node` leaves the slot alone or records the failing
sub-parse's error. -/
theorem parse_node_err (input : List Char) (pos : Nat) (err : MetaMarkError) :
    (parse_node input pos err).2.2 = err ∨ (parse_node input pos err).2.2 = .errSyn ∨
      (parse_node input pos err).2.2 = .errMemory := by
  simp only [parse_node]
  split
  · left; exact parse_heading_err input _ err
  · split
    · rcases parse_component_err input _ err with h | h
      · left; exact h
      · right; left; exact h
    · split
      · rcases parse_annot_err input _ err with h | h
        · left; exact h
        · right; left; exact h
      · split
        · rcases parse_comment_err input _ err with h | h
          · left; exact h
          · right; left; exact h
        · split
          · exact parse_metadata_err input _ err
          · split
            · split
              · left; rfl
              · left; rfl
            · left; rfl

/-- The document loop only ever carries forward the slot or the error a
failing sub-parse just recorded. -/
theorem parse_loop_err (input : List Char) (fuel : Nat) (doc : Document)
    (pos : Nat) (err : MetaMarkError) :
    (parse_loop input fuel doc pos err).2 = err ∨
      (parse_loop input fuel doc pos err).2 = .errSyn ∨
      (parse_loop input fuel doc pos err).2 = .errMemory := by
  induction fuel generalizing doc pos err with
  | zero => left; rfl
  | succ fuel ih =>
    simp only [parse_loop]
    split
    · left; rfl
    · have h1 := parse_node_err input pos err
      split
      · rename_i n heq
        rcases ih { doc with root := add_child doc.root n }
            (parse_node input pos err).2.1 (parse_node input pos err).2.2 with h2 | h2 | h2 <;>
          rcases h1 with h1 | h1 | h1 <;> simp_all
      · rcases ih doc (skip_ws_all input (parse_node input pos err).2.1)
            (parse_node input pos err).2.2 with h2 | h2 | h2 <;>
          rcases h1 with h1 | h1 | h1 <;> simp_all

/-- `mm_finish` succeeds exactly with the document it was given, its
error value, and a non-empty root. -/
theorem mm_finish_some (doc : Document) (err : MetaMarkError) (d : Document)
    (e' : MetaMarkError) (h : mm_finish doc err = (some d, e')) :
    d = doc ∧ e' = err ∧ d.root.child_count ≠ 0 := by
  unfold mm_finish at h
  split at h
  · exact absurd (congrArg Prod.fst h) (by simp)
  · rename_i hcnt
    have h1 : (some doc : Option Document) = some d := congrArg Prod.fst h
    have h2 : err = e' := congrArg Prod.snd h
    cases h1
    cases h2
    exact ⟨rfl, rfl, hcnt⟩

/-- The frontmatter prologue carries the slot forward or records the
error of a failing metadata block. -/
theorem mm_prologue_err (input : List Char) (doc0 : Document) (err : MetaMarkError) :
    (mm_prologue input doc0 err).2.2 = err ∨ (mm_prologue input doc0 err).2.2 = .errSyn ∨
      (mm_prologue input doc0 err).2.2 = .errMemory := by
  simp only [mm_prologue]
  split
  · split
    · exact parse_metadata_err input 0 err
    · exact parse_metadata_err input 0 err
  · left; rfl

/-- A successful `mm_parse` leaves the slot at its prior value or at the
error recorded by a failed (and discarded) sub-parse. -/
theorem mm_parse_some_err (s : List Char) (e : MetaMarkError) (d : Document)
    (e' : MetaMarkError) (h : mm_parse s e = (some d, e')) :
    e' = e ∨ e' = .errSyn ∨ e' = .errMemory := by
  simp only [mm_parse] at h
  split at h
  · exact absurd (congrArg Prod.fst h) (by simp)
  · obtain ⟨-, he', -⟩ := mm_finish_some _ _ _ _ h
    subst he'
    have h1 := mm_prologue_err (s.dropWhile mm_isspace)
      { metadata := [], root := create_node .NODE_DOCUMENT none } e
    have h2 := parse_loop_err (s.dropWhile mm_isspace) ((s.dropWhile mm_isspace).length + 1)
      (mm_prologue (s.dropWhile mm_isspace)
        { metadata := [], root := create_node .NODE_DOCUMENT none } e).1
      (mm_prologue (s.dropWhile mm_isspace)
        { metadata := [], root := create_node .NODE_DOCUMENT none } e).2.1
      (mm_prologue (s.dropWhile mm_isspace)
        { metadata := [], root := create_node .NODE_DOCUMENT none } e).2.2
    rcases h2 with h2 | h2 | h2 <;> rcases h1 with h1 | h1 | h1 <;> simp_all

/-- A successful `mm_parse` always returns a root with at least one
child (the final `child_count == 0` check). -/
theorem mm_parse_some_children (s : List Char) (e : MetaMarkError) (d : Document)
    (e' : MetaMarkError) (h : mm_parse s e = (some d, e')) :
    d.root.child_count ≠ 0 := by
  simp only [mm_parse] at h
  split at h
  · exact absurd (congrArg Prod.fst h) (by simp)
  · exact (mm_finish_some _ _ _ _ h).2.2

/-! ## Claim theorems -/

/-- C10: for a well-formed parent (`child_count ≤ child_capacity`, as
holds for every node the library builds) and any child, `add_child`
appends the child as the new last element — previous children and their
order unchanged, `child_count` one larger and still within
`child_capacity` — while a NULL parent or NULL child changes nothing. -/
theorem add_child_appends (p c : Node) (h : p.child_count ≤ p.child_capacity) :
    (add_child p c).children = p.children ++ [c] ∧
    (add_child p c).child_count = p.child_count + 1 ∧
    (add_child p c).child_count ≤ (add_child p c).child_capacity ∧
    (∀ x, add_child_ptr none x = none) ∧
    (∀ q, add_child_ptr (some q) none = some q) := by
  refine ⟨?_, ?_, ?_, fun x => rfl, fun q => rfl⟩
  · cases p
    simp [add_child, Node.withChildren, Node.children]
  · cases p
    simp [add_child, Node.withChildren, Node.children, Node.child_count]
  · cases p with
    | mk t co ch cap l =>
      simp only [add_child, Node.withChildren, Node.child_count, Node.children,
        Node.child_capacity] at h ⊢
      split_ifs with h1 h2 <;> simp_all <;> omega

/-- C10 witness: `add_child_appends` applied to a fresh Document node
and a fresh Paragraph child. -/
theorem add_child_appends_witness :
    (create_node .NODE_DOCUMENT none).child_count ≤
      (create_node .NODE_DOCUMENT none).child_capacity ∧
    (add_child (create_node .NODE_DOCUMENT none)
        (create_node .NODE_PARAGRAPH (some "x"))).child_count =
      (create_node .NODE_DOCUMENT none).child_count + 1 :=
  ⟨by decide,
   (add_child_appends (create_node .NODE_DOCUMENT none)
     (create_node .NODE_PARAGRAPH (some "x")) (by decide)).2.1⟩

/-- C5 (evaluation at the claim's failing inputs): the claim says
`read_token_value` returns an absent value for every `start ≥ end` and
for `end` past the input length.  The code instead returns the empty
string for `start = end` and a truncated string for `end` beyond the
input; only `start > end` fails (the `size_t` length wraps and the huge
allocation fails). -/
theorem read_token_value_range_eval :
    read_token_value "ab".data 0 0 = some "" ∧
    read_token_value "ab".data 2 2 = some "" ∧
    read_token_value "ab".data 0 5 = some "ab" ∧
    read_token_value "ab".data 1 0 = none :=
  ⟨rfl, rfl, rfl, rfl⟩

/-- C2 (evaluation at the claim's input): parsing
`"[[empty]]\n[[/empty]]\n"` succeeds with one Component child of content
"empty", but the Component carries ONE child — a Paragraph with empty
content — because `read_token_value` returns `""` (not NULL) for the
empty body range; the repo's own test (test_parser.c, test_edge_cases)
asserts `child_count == 0`. -/
theorem empty_component_eval :
    mm_parse "[[empty]]\n[[/empty]]\n".data .errNone =
      (some ⟨[], Node.mk .NODE_DOCUMENT none
        [Node.mk .NODE_COMPONENT (some "empty")
          [Node.mk .NODE_PARAGRAPH (some "") [] 0 0] 4 0] 4 0⟩, .errNone) := rfl

/-- C6 (evaluation at the claim's input): parsing `"> note:\n"` succeeds
with one Annotation of type "note", but the Annotation carries ONE child
— a Paragraph with empty content — because `read_token_value` returns
`""` (not NULL) for the empty remainder of the line; the repo's own test
(test_parser.c, test_edge_cases) asserts `child_count == 0`. -/
theorem empty_annot_eval :
    mm_parse "> note:\n".data .errNone =
      (some ⟨[], Node.mk .NODE_DOCUMENT none
        [Node.mk .NODE_ANNOT (some "note")
          [Node.mk .NODE_PARAGRAPH (some "") [] 0 0] 4 0] 4 0⟩, .errNone) := rfl

/-- The document `"---\ntitle: T\nauthor: A\n---\n"` parses to. -/
def fm_doc : Document :=
  ⟨[("title", "T"), ("author", "A")],
   Node.mk .NODE_DOCUMENT none
     [Node.mk .NODE_METADATA (some "\ntitle: T\nauthor: A\n")
       [Node.mk .NODE_PARAGRAPH (some "title:T") [] 0 0,
        Node.mk .NODE_PARAGRAPH (some "author:A") [] 0 0] 4 0] 4 0⟩

/-- C3: `"---\ntitle: T\nauthor: A\n---\n"` parses successfully into a
Document whose root has exactly one child, a Metadata node with exactly
two Paragraph children (one per key/value line), and `get_metadata`
returns "T" for "title" and "A" for "author". -/
theorem frontmatter_two_pairs :
    mm_parse "---\ntitle: T\nauthor: A\n---\n".data .errNone = (some fm_doc, .errNone) ∧
    fm_doc.root.children.map Node.type = [.NODE_METADATA] ∧
    (fm_doc.root.children.map Node.child_count) = [2] ∧
    get_metadata fm_doc "title" = some "T" ∧
    get_metadata fm_doc "author" = some "A" :=
  ⟨rfl, rfl, rfl, rfl, rfl⟩

/-- C4 counterexample: on `"a#b\n\n"` the free-text loop stops at the
mid-line `#`, so the parse yields TWO root children (Paragraph "a" then
Heading "b"), not the single Paragraph containing the whole line that
the claim requires. -/
theorem midline_hash_counterexample :
    mm_parse "a#b\n\n".data .errNone =
      (some ⟨[], Node.mk .NODE_DOCUMENT none
        [Node.mk .NODE_PARAGRAPH (some "a") [] 0 0,
         Node.mk .NODE_HEADING (some "b") [] 0 1] 4 0⟩, .errNone) ∧
    [Node.mk .NODE_PARAGRAPH (some "a") [] 0 0,
     Node.mk .NODE_HEADING (some "b") [] 0 1].length ≠ 1 :=
  ⟨rfl, by decide⟩

/-- C4 amended: the free-text accumulator stops at a
construct-introducing byte wherever it occurs in the line (the loop
checks `text_break` at every byte, with no line-start tracking), so
`"a#b\n\n"` parses as a Paragraph "a" followed by a level-1 Heading
"b". -/
theorem midline_break_amended :
    mm_parse "a#b\n\n".data .errNone =
      (some ⟨[], Node.mk .NODE_DOCUMENT none
        [Node.mk .NODE_PARAGRAPH (some "a") [] 0 0,
         Node.mk .NODE_HEADING (some "b") [] 0 1] 4 0⟩, .errNone) := rfl

/-- C1 counterexample: on `"# h\n[[x"` the component block hits a
structural violation (the error slot ends at MM_ERROR_SYNTAX), yet
`parse_metamark` returns a success Document carrying the heading parsed
before the violation — the parse is not aborted. -/
theorem violation_still_success :
    mm_parse "# h\n[[x".data .errNone =
      (some ⟨[], Node.mk .NODE_DOCUMENT none
        [Node.mk .NODE_HEADING (some "h") [] 0 1] 4 0⟩, .errSyn) ∧
    MetaMarkError.errSyn ≠ MetaMarkError.errNone :=
  ⟨rfl, by decide⟩

/-- C1 amended: a structural violation only aborts the block in which it
occurs (the block contributes no node and the error slot records
Syntax); `parse_metamark` fails exactly when the root ends up with no
children — so a document whose only content is an ill-formed block fails
(e.g. `"[[x"`), while a violation after a successfully parsed block
still yields a success Document (e.g. `"# h\n[[x"`). -/
theorem parse_fails_only_on_empty_root :
    (∀ s e d e', parse_metamark (some s) e = (some d, e') → d.root.child_count ≠ 0) ∧
    parse_metamark (some "[[x".data) .errNone = (none, .errSyn) ∧
    parse_metamark (some "# h\n[[x".data) .errNone =
      (some ⟨[], Node.mk .NODE_DOCUMENT none
        [Node.mk .NODE_HEADING (some "h") [] 0 1] 4 0⟩, .errSyn) := by
  refine ⟨?_, rfl, rfl⟩
  intro s e d e' h
  exact mm_parse_some_children s e d e' h

/-- C1 witness: the general clause of `parse_fails_only_on_empty_root`
applied to the concrete successful parse of `"# h\n[[x"`. -/
theorem parse_fails_only_on_empty_root_witness :
    (⟨[], Node.mk .NODE_DOCUMENT none
      [Node.mk .NODE_HEADING (some "h") [] 0 1] 4 0⟩ : Document).root.child_count ≠ 0 :=
  parse_fails_only_on_empty_root.1 "# h\n[[x".data .errNone
    ⟨[], Node.mk .NODE_DOCUMENT none [Node.mk .NODE_HEADING (some "h") [] 0 1] 4 0⟩
    .errSyn rfl

/-- C7 counterexample: parsing `"ok\n\n[[bad"` succeeds (the paragraph
parsed before the ill-formed component keeps the root non-empty), yet
the error slot moves from MM_ERROR_NONE to MM_ERROR_SYNTAX — the slot is
not preserved across a successful `parse_metamark` call. -/
theorem error_slot_changed_on_success :
    mm_parse "ok\n\n[[bad".data .errNone =
      (some ⟨[], Node.mk .NODE_DOCUMENT none
        [Node.mk .NODE_PARAGRAPH (some "ok") [] 0 0] 4 0⟩, .errSyn) ∧
    MetaMarkError.errSyn ≠ MetaMarkError.errNone :=
  ⟨rfl, by decide⟩

/-- C7 amended: on a successful parse the last-error slot holds either
its prior value or the error recorded by a failed (and discarded)
internal operation — Syntax from an ill-formed block, or Memory from an
allocation failure; it is guaranteed unchanged only when no internal
operation failed. -/
theorem error_slot_on_success (s : List Char) (e : MetaMarkError) (d : Document)
    (e' : MetaMarkError) (h : parse_metamark (some s) e = (some d, e')) :
    e' = e ∨ e' = .errSyn ∨ e' = .errMemory :=
  mm_parse_some_err s e d e' h

/-- C7 witness: `error_slot_on_success` at the concrete parse of
`"# t\n"` starting from MM_ERROR_IO (the slot is carried through). -/
theorem error_slot_on_success_witness :
    MetaMarkError.errIo = MetaMarkError.errIo ∨
    MetaMarkError.errIo = MetaMarkError.errSyn ∨
    MetaMarkError.errIo = MetaMarkError.errMemory :=
  error_slot_on_success "# t\n".data .errIo
    ⟨[], Node.mk .NODE_DOCUMENT none [Node.mk .NODE_HEADING (some "t") [] 0 1] 4 0⟩
    .errIo rfl

/-- C8: for a frontmatter body whose key/value lines contain two entries
with the same key — the first carrying `v1` — the extractor appends
every pair to the document's metadata mapping as separate entries in
input order (`pairsOf`), and `get_metadata` returns `v1`, the value of
the first entry whose key matches. -/
theorem metadata_append_first_match (d : Document) (cs : List Char) (k v1 v2 : String)
    (l1 l2 l3 : List MetadataPair) (hd : d.metadata = [])
    (hsplit : pairsOf cs = l1 ++ (k, v1) :: l2 ++ (k, v2) :: l3)
    (hfirst : ∀ p ∈ l1, p.1 ≠ k) :
    (parse_metadata_string d (some cs)).metadata = pairsOf cs ∧
    get_metadata (parse_metadata_string d (some cs)) k = some v1 := by
  have hm : (parse_metadata_string d (some cs)).metadata = pairsOf cs := by
    show (pms_go d (mm_split_lines cs)).metadata = _
    rw [pms_go_metadata, hd]
    simp [pairsOf]
  refine ⟨hm, ?_⟩
  show get_metadata_go k (parse_metadata_string d (some cs)).metadata = some v1
  rw [hm, hsplit, List.append_assoc, List.cons_append]
  exact get_metadata_go_first k v1 l1 (l2 ++ (k, v2) :: l3) hfirst

/-- C8 witness: `metadata_append_first_match` on the concrete body
`"dup: a\ndup: b"`. -/
theorem metadata_append_first_match_witness :
    pairsOf "dup: a\ndup: b".data = [] ++ ("dup", "a") :: [] ++ ("dup", "b") :: [] ∧
    get_metadata (parse_metadata_string ⟨[], create_node .NODE_DOCUMENT none⟩
      (some "dup: a\ndup: b".data)) "dup" = some "a" :=
  ⟨rfl,
   (metadata_append_first_match ⟨[], create_node .NODE_DOCUMENT none⟩
     "dup: a\ndup: b".data "dup" "a" "b" [] [] [] rfl rfl (by simp)).2⟩

/-- C9 counterexample: on the heading line `"# ab"` terminated by end of
input rather than a newline, `read_token_value(start, pos - 1)` drops
the final content byte: the Heading's content is "a", not the full
remaining text "ab" the claim requires. -/
theorem heading_eoi_drops_last_byte :
    mm_parse "# ab".data .errNone =
      (some ⟨[], Node.mk .NODE_DOCUMENT none
        [Node.mk .NODE_HEADING (some "a") [] 0 1] 4 0⟩, .errNone) ∧
    (some "a" : Option String) ≠ some "ab" :=
  ⟨rfl, by decide⟩

/-- C9 amended: for every heading line of N ≥ 1 `#` bytes, optional
intraline whitespace, then non-empty text T (not starting with
whitespace, nor with `#` when there is no whitespace, and containing no
newline) *terminated by a newline*, the parse yields exactly one Heading
node whose content is exactly T and whose level is N.  (When the line is
instead terminated by end of input the code drops the final byte of T —
see the counterexample.) -/
theorem heading_line_parse (N : Nat) (ws T : List Char) (e : MetaMarkError)
    (hN : 1 ≤ N)
    (hws : ∀ c ∈ ws, mm_isspace c = true ∧ c ≠ '\n')
    (hT : T ≠ []) (hTn : '\n' ∉ T) (hT0 : '\x00' ∉ T)
    (hTh : mm_isspace (T.headD '\x00') = false)
    (hTsharp : ws = [] → T.headD '\x00' ≠ '#') :
    mm_parse (List.replicate N '#' ++ ws ++ T ++ ['\n']) e =
      (some ⟨[], Node.mk .NODE_DOCUMENT none
        [Node.mk .NODE_HEADING (some (String.mk T)) [] 0 N] 4 0⟩, e) := by
  obtain ⟨n, rfl⟩ : ∃ n, N = n + 1 := ⟨N - 1, by omega⟩
  obtain ⟨t, T', rfl⟩ : ∃ t T', T = t :: T' := by
    cases T with
    | nil => exact absurd rfl hT
    | cons a l => exact ⟨a, l, rfl⟩
  simp only [List.headD_cons] at hTh hTsharp
  -- the head of what follows the `#` run is never another `#`
  have hhead1 : ∀ c, (ws ++ ((t :: T') ++ ['\n'])).head? = some c →
      decide (c = '#') = false := by
    intro c hc
    rcases ws with _ | ⟨w, ws'⟩
    · rw [List.nil_append, List.cons_append, List.head?_cons] at hc
      have hct : c = t := (Option.some.inj hc).symm
      subst hct
      simp [hTsharp rfl]
    · rw [List.cons_append, List.head?_cons] at hc
      have hcw : c = w := (Option.some.inj hc).symm
      have hsp := (hws w (by simp)).1
      have hwne : w ≠ '#' := by
        intro hcc
        rw [hcc] at hsp
        exact absurd hsp (by decide)
      rw [hcw]
      simp [hwne]
  set input := List.replicate (n + 1) '#' ++ ws ++ (t :: T') ++ ['\n'] with hinput
  have e0 : input = '#' :: (List.replicate n '#' ++ (ws ++ ((t :: T') ++ ['\n']))) := by
    rw [hinput]
    simp [List.replicate_succ, List.append_assoc]
  have e1 : input = List.replicate (n + 1) '#' ++ (ws ++ ((t :: T') ++ ['\n'])) := by
    rw [hinput]
    simp [List.append_assoc]
  have e2 : input = (List.replicate (n + 1) '#' ++ ws) ++ ((t :: T') ++ ['\n']) := by
    rw [hinput]
    simp [List.append_assoc]
  have e3 : input = ((List.replicate (n + 1) '#' ++ ws) ++ (t :: T')) ++ ['\n'] := by
    rw [hinput]
  have hpeek0 : peek input 0 = '#' := by
    rw [peek_drop, List.drop_zero, e0]
    rfl
  have hlen : input.length = (n + 1) + ws.length + (T'.length + 1) + 1 := by
    rw [e3]
    simp only [List.length_append, List.length_replicate, List.length_cons, List.length_nil]
  -- the `#` loop consumes exactly the N markers
  have hs1 : scan_hashes input 0 = n + 1 := by
    unfold scan_hashes scan_while
    rw [List.drop_zero, e1,
      scanWhileGo_append _ _ _ _ (fun c hc => by simp [List.eq_of_mem_replicate hc]),
      scanWhileGo_stop _ _ _ hhead1]
    simp
  -- the whitespace skip consumes exactly ws
  have hdropN : input.drop (n + 1) = ws ++ ((t :: T') ++ ['\n']) := by
    rw [e1]
    exact List.drop_left' (by simp)
  have hhead2 : ∀ c, ((t :: T') ++ ['\n']).head? = some c →
      (mm_isspace c && decide ¬c = '\n') = false := by
    intro c hc
    rw [List.cons_append, List.head?_cons] at hc
    have hct : c = t := (Option.some.inj hc).symm
    subst hct
    simp [hTh]
  have hs2 : skip_whitespace input (n + 1) = (n + 1) + ws.length := by
    unfold skip_whitespace scan_while
    rw [hdropN,
      scanWhileGo_append _ _ _ _ (fun c hc => by
        obtain ⟨h1, h2⟩ := hws c hc
        simp [h1, h2]),
      scanWhileGo_stop _ _ _ hhead2]
  -- the content scan consumes exactly T and stops at the newline
  have hdropNW : input.drop ((n + 1) + ws.length) = (t :: T') ++ ['\n'] := by
    rw [e2]
    exact List.drop_left' (by simp)
  have hhead3 : ∀ c, (['\n'] : List Char).head? = some c →
      (decide ¬c = '\x00' && decide ¬c = '\n') = false := by
    intro c hc
    rw [List.head?_cons] at hc
    have hcn : c = '\n' := (Option.some.inj hc).symm
    subst hcn
    simp
  have hs3 : scan_line input ((n + 1) + ws.length) =
      (n + 1) + ws.length + (T'.length + 1) := by
    unfold scan_line scan_while
    rw [hdropNW,
      scanWhileGo_append _ _ _ _ (fun c hc => by
        have h1 : c ≠ '\x00' := fun h => hT0 (h ▸ hc)
        have h2 : c ≠ '\n' := fun h => hTn (h ▸ hc)
        simp [h1, h2]),
      scanWhileGo_stop _ _ _ hhead3]
    simp
  have hs4 : peek input ((n + 1) + ws.length + (T'.length + 1)) = '\n' := by
    rw [peek_drop, e3, List.drop_left' (by
      simp only [List.length_append, List.length_replicate, List.length_cons])]
    rfl
  have hs5 : read_token_value input ((n + 1) + ws.length)
      ((n + 1) + ws.length + (T'.length + 1) + 1 - 1) = some (String.mk (t :: T')) := by
    have harith : (n + 1) + ws.length + (T'.length + 1) + 1 - 1 =
        (n + 1) + ws.length + (T'.length + 1) := by omega
    rw [harith]
    unfold read_token_value
    rw [if_neg (by omega)]
    have harith2 : (n + 1) + ws.length + (T'.length + 1) - ((n + 1) + ws.length) =
        T'.length + 1 := by omega
    rw [hdropNW, harith2, List.take_left' (by simp)]
    rw [List.takeWhile_eq_self_iff.mpr]
    intro c hc
    have : c ≠ '\x00' := fun h => hT0 (h ▸ hc)
    simp [this]
  -- the heading routine produces the node
  have hs7 : parse_heading input 0 e =
      (some (Node.mk .NODE_HEADING (some (String.mk (t :: T'))) [] 0 (n + 1)),
       (n + 1) + ws.length + (T'.length + 1) + 1, e) := by
    simp only [parse_heading]
    rw [hs1, Nat.sub_zero, hs2, hs3, hs4, if_pos rfl, hs5]
    rfl
  -- the dispatcher reaches the heading routine without moving
  have hs8 : parse_node input 0 e =
      (some (Node.mk .NODE_HEADING (some (String.mk (t :: T'))) [] 0 (n + 1)),
       (n + 1) + ws.length + (T'.length + 1) + 1, e) := by
    have h1 : skip_nl_cr input 0 = 0 := by
      unfold skip_nl_cr scan_while
      rw [List.drop_zero, e0, scanWhileGo_stop _ _ _ (by
        intro c hc
        rw [List.head?_cons] at hc
        have hch : c = '#' := (Option.some.inj hc).symm
        subst hch
        decide)]
    have h2 : skip_ws_all input 0 = 0 := by
      unfold skip_ws_all scan_while
      rw [List.drop_zero, e0, scanWhileGo_stop _ _ _ (by
        intro c hc
        rw [List.head?_cons] at hc
        have hch : c = '#' := (Option.some.inj hc).symm
        subst hch
        decide)]
    simp only [parse_node]
    rw [h1, h2, hpeek0, if_pos rfl]
    exact hs7
  have hpeekEnd : peek input ((n + 1) + ws.length + (T'.length + 1) + 1) = '\x00' := by
    unfold peek
    apply List.getD_eq_default
    omega
  -- the document loop: one heading, then end-of-input
  have hloop : parse_loop input (input.length + 1)
      ⟨[], create_node .NODE_DOCUMENT none⟩ 0 e =
      (⟨[], Node.mk .NODE_DOCUMENT none
        [Node.mk .NODE_HEADING (some (String.mk (t :: T'))) [] 0 (n + 1)] 4 0⟩, e) := by
    rw [hlen, parse_loop_succ, if_neg (by
      rw [hpeek0]
      decide), hs8]
    dsimp only
    rw [parse_loop_succ, if_pos hpeekEnd]
    rfl
  have hdw : List.dropWhile mm_isspace input = input := by
    rw [e0, List.dropWhile_cons]
    have hns : mm_isspace '#' = false := by decide
    rw [hns]
    simp
  have hne : input.isEmpty = false := by
    rw [e0]
    rfl
  have hprol : mm_prologue input ⟨[], create_node .NODE_DOCUMENT none⟩ e =
      (⟨[], create_node .NODE_DOCUMENT none⟩, 0, e) := by
    simp only [mm_prologue]
    rw [if_neg]
    rintro ⟨h1, -⟩
    rw [show peek_at input 0 0 = peek input 0 from rfl, hpeek0] at h1
    exact absurd h1 (by decide)
  simp only [mm_parse]
  rw [hdw, hne, if_neg (by simp), hprol]
  dsimp only
  rw [hloop]
  rfl

/-- C9 witness: `heading_line_parse` at the concrete line `"## ab\n"`. -/
theorem heading_line_parse_witness :
    mm_parse (List.replicate 2 '#' ++ [' '] ++ ['a', 'b'] ++ ['\n']) .errNone =
      (some ⟨[], Node.mk .NODE_DOCUMENT none
        [Node.mk .NODE_HEADING (some (String.mk ['a', 'b'])) [] 0 2] 4 0⟩, .errNone) :=
  heading_line_parse 2 [' '] ['a', 'b'] .errNone (by decide) (by decide) (by decide)
    (by decide) (by decide) (by decide) (by decide)

end MetaMark
